import Mathlib

/-!
Verification of the configuration-merge and rotation/geometry logic of the
`react-custom-clock` repository.

The development shallowly embeds:
* `defaultFill` (src/unnamed/part_001) — the recursive configuration merger —
  over a model `Value` of JavaScript values;
* the rotation-angle computations and the hand-geometry computations of
  `src/src/Clock.tsx` (`ClockInterface`, `ClockHand`) over ℚ;
* a second, id-tagged model `HValue` of JavaScript values in which every
  mutable object carries a node identity, used to reason about reference
  sharing between the merge result and its inputs.
-/

namespace ClockSpec

/-!  § JavaScript value model for `defaultFill` (src/unnamed/part_001).

`Value` models the JavaScript values that `defaultFill` can encounter:
numbers, strings, booleans, `undefined`, `null`, plain objects, and
"array-like" values (arrays, `Date`, `RegExp`, `Set`, `Map`) which have
`typeof _ === "object"` but are rejected by `isObject` and hence are treated
as atomic, never-merged-into values; their contents are abstracted as a
numeric tag.  `Fields` is the ordered list of own enumerable properties of a
plain object (JavaScript objects cannot have duplicate keys; iteration order
is insertion order). -/

mutual

inductive Value where
  | vNum (q : ℚ)
  | vStr (s : String)
  | vBool (b : Bool)
  | vUndef
  | vNull
  | vArr (tag : ℕ)
  | vObj (fields : Fields)

inductive Fields where
  | fnil
  | fcons (key : String) (value : Value) (rest : Fields)

end

/-- Build a `Fields` list from a Lean list literal. -/
def fieldsOf : List (String × Value) → Fields
  | [] => .fnil
  | (k, v) :: rest => .fcons k v (fieldsOf rest)

/-- JavaScript `typeof`.  `typeof null`, `typeof []` and `typeof {}` are all
`"object"`; `typeof undefined` is `"undefined"`. -/
def typeOf : Value → String
  | .vNum _ => "number"
  | .vStr _ => "string"
  | .vBool _ => "boolean"
  | .vUndef => "undefined"
  | .vNull => "object"
  | .vArr _ => "object"
  | .vObj _ => "object"

/-- `isObject` from src/unnamed/part_001: `typeof value === "object"`, not
`null`, not an array, not a `RegExp`/`Date`/`Set`/`Map`.  Only plain objects
qualify. -/
def isObject : Value → Bool
  | .vObj _ => true
  | _ => false

/-- Property lookup (`userObj[key]`); `none` models `key in userObj` being
false. -/
def lookupF (k : String) : Fields → Option Value
  | .fnil => none
  | .fcons k' v rest => if k' = k then some v else lookupF k rest

/-- The JavaScript `in` operator restricted to own properties. -/
def keyMemF (k : String) : Fields → Bool
  | .fnil => false
  | .fcons k' _ rest => (k' = k) || keyMemF k rest

/-- `value === undefined`. -/
def isUndef : Value → Bool
  | .vUndef => true
  | _ => false

mutual

/-- `defaultFill` from src/unnamed/part_001, together with the number of
`console.warn` calls it performs.  `structuredClone(defaultObj)` is the
identity in this pure model (the id-tagged model `HValue` below accounts for
the freshness it provides).  If either argument fails `isObject`, the loop
body is skipped and the clone of the default is returned. -/
def defaultFill (d u : Value) : Value × ℕ :=
  match d, u with
  | .vObj dfs, .vObj ufs =>
    let r := fillFields dfs ufs
    (.vObj r.1, r.2)
  | d, _ => (d, 0)

/-- The `for (const key in defaultObj)` loop of `defaultFill`: each default
field is kept when the user key is absent (`!(key in userObj)`, modelled by
`lookupF` returning `none`) or its user value is `undefined`; kept with one
`console.warn` when the `typeof`s differ; merged recursively when the
default value is a plain object; otherwise replaced by the user's value.
Warnings add up across fields. -/
def fillFields (dfs ufs : Fields) : Fields × ℕ :=
  match dfs with
  | .fnil => (.fnil, 0)
  | .fcons k dv rest =>
    let hd : Value × ℕ :=
      match lookupF k ufs with
      | none => (dv, 0)
      | some uv =>
        if isUndef uv then (dv, 0)
        else if typeOf dv ≠ typeOf uv then (dv, 1)
        else if isObject dv then defaultFill dv uv
        else (uv, 0)
    let tl := fillFields rest ufs
    (.fcons k hd.1 tl.1, hd.2 + tl.2)

end

/-- The loop body of `fillFields` for a single default field value `dv`,
abstracted over the user object's property at that key, for use in
statements and proofs; `fillFields_cons` relates it to `fillFields`. -/
def fillEntry (dv : Value) (o : Option Value) : Value × ℕ :=
  match o with
  | none => (dv, 0)
  | some uv =>
    if isUndef uv then (dv, 0)
    else if typeOf dv ≠ typeOf uv then (dv, 1)
    else if isObject dv then defaultFill dv uv
    else (uv, 0)

theorem fillFields_cons (k : String) (dv : Value) (rest ufs : Fields) :
    fillFields (.fcons k dv rest) ufs =
      (.fcons k (fillEntry dv (lookupF k ufs)).1 (fillFields rest ufs).1,
       (fillEntry dv (lookupF k ufs)).2 + (fillFields rest ufs).2) := rfl

/-- Traverse a path of keys through nested plain objects. -/
def getPath : Value → List String → Option Value
  | v, [] => some v
  | .vObj fs, k :: ks =>
    match lookupF k fs with
    | some v => getPath v ks
    | none => none
  | _, _ :: _ => none

/-- No two fields at this level share a key. -/
def nodupKeysF : Fields → Bool
  | .fnil => true
  | .fcons k _ rest => !keyMemF k rest && nodupKeysF rest

mutual

/-- Every plain-object node of the tree has duplicate-free keys (true of
every actual JavaScript object). -/
def wfKeys : Value → Bool
  | .vObj fs => nodupKeysF fs && wfKeysF fs
  | _ => true

def wfKeysF : Fields → Bool
  | .fnil => true
  | .fcons _ v rest => wfKeys v && wfKeysF rest

end

/-- The default configuration tree `OPTIONS` of src/src/Clock.tsx
(lines 299–433), transcribed field by field in source order. -/
def OPTIONS : Value := .vObj (fieldsOf [
  ("size", .vNum 400),
  ("face", .vObj (fieldsOf [
    ("background", .vStr "white"),
    ("show", .vBool true),
    ("padding", .vNum 0),
    ("ticks", .vObj (fieldsOf [
      ("show", .vBool true),
      ("regular", .vObj (fieldsOf [
        ("show", .vBool true),
        ("height", .vNum 20),
        ("width", .vNum 4),
        ("background", .vStr "rgb(200 200 200)"),
        ("radius", .vNum 2)])),
      ("secondary", .vObj (fieldsOf [
        ("show", .vBool true),
        ("height", .vNum 28),
        ("width", .vNum 4),
        ("background", .vStr "black"),
        ("radius", .vNum 2)])),
      ("primary", .vObj (fieldsOf [
        ("show", .vBool true),
        ("height", .vNum 36),
        ("width", .vNum 8),
        ("background", .vStr "rgb(0 122 255)"),
        ("radius", .vNum 3)]))])),
    ("counts", .vObj (fieldsOf [
      ("show", .vBool true),
      ("secondary", .vObj (fieldsOf [
        ("show", .vBool true),
        ("size", .vNum 20),
        ("color", .vStr "rgb(100 100 100)"),
        ("background", .vStr "rgb(0 122 255 / 0)"),
        ("gap", .vNum 5)])),
      ("primary", .vObj (fieldsOf [
        ("show", .vBool true),
        ("size", .vNum 25),
        ("color", .vStr "black"),
        ("background", .vStr "rgb(0 122 255 / 0.08)"),
        ("gap", .vNum 5)]))]))])),
  ("interface", .vObj (fieldsOf [
    ("show", .vBool true),
    ("dynamic", .vBool true),
    ("transition", .vNum 300),
    ("pivot", .vObj (fieldsOf [
      ("show", .vBool true),
      ("size", .vNum 20),
      ("background", .vStr "rgb(0 0 0)")])),
    ("hourHand", .vObj (fieldsOf [
      ("show", .vBool true),
      ("front", .vObj (fieldsOf [
        ("show", .vBool true),
        ("background", .vStr "black"),
        ("radius", .vNum 4),
        ("width", .vNum 12),
        ("height", .vNum 80),
        ("alignment", .vStr "CENTER")])),
      ("frontBase", .vObj (fieldsOf [
        ("show", .vBool true),
        ("background", .vStr "grey"),
        ("radius", .vNum 2),
        ("width", .vNum 4),
        ("height", .vNum 120)])),
      ("back", .vObj (fieldsOf [
        ("show", .vBool true),
        ("background", .vStr "grey"),
        ("radius", .vNum 2),
        ("width", .vNum 4),
        ("height", .vNum 24)]))])),
    ("minuteHand", .vObj (fieldsOf [
      ("show", .vBool true),
      ("front", .vObj (fieldsOf [
        ("show", .vBool true),
        ("background", .vStr "black"),
        ("radius", .vNum 4),
        ("width", .vNum 8),
        ("height", .vNum 120),
        ("alignment", .vStr "TICK")])),
      ("frontBase", .vObj (fieldsOf [
        ("show", .vBool true),
        ("background", .vStr "grey"),
        ("radius", .vNum 2),
        ("width", .vNum 4),
        ("height", .vNum 150)])),
      ("back", .vObj (fieldsOf [
        ("show", .vBool true),
        ("background", .vStr "grey"),
        ("radius", .vNum 2),
        ("width", .vNum 4),
        ("height", .vNum 30)]))])),
    ("secondHand", .vObj (fieldsOf [
      ("show", .vBool true),
      ("front", .vObj (fieldsOf [
        ("show", .vBool true),
        ("background", .vStr "red"),
        ("radius", .vNum 4),
        ("width", .vNum 6),
        ("height", .vNum 120),
        ("alignment", .vStr "CENTER")])),
      ("frontBase", .vObj (fieldsOf [
        ("show", .vBool true),
        ("background", .vStr "orange"),
        ("radius", .vNum 2),
        ("width", .vNum 4),
        ("height", .vNum 150)])),
      ("back", .vObj (fieldsOf [
        ("show", .vBool true),
        ("background", .vStr "grey"),
        ("radius", .vNum 2),
        ("width", .vNum 4),
        ("height", .vNum 30)]))]))]))])

mutual

/-- `sameShape d v`: `v` has exactly the structure of the default tree `d` —
at plain-object nodes the very same keys in the same order with recursively
shape-identical values, and at every other (scalar) position a value of the
same `typeof`. -/
def sameShape : Value → Value → Bool
  | .vObj dfs, .vObj vfs => sameShapeF dfs vfs
  | .vObj _, _ => false
  | d, v => typeOf d == typeOf v

def sameShapeF : Fields → Fields → Bool
  | .fnil, .fnil => true
  | .fcons k dv dr, .fcons k' vv vr => k == k' && sameShape dv vv && sameShapeF dr vr
  | _, _ => false

end

/-!  § Rotation engine (src/src/Clock.tsx, `ClockInterface`, lines 645–717).

Angles are exact rationals (the source computes with JavaScript numbers; all
the claimed values are exactly representable and the claims are about the
exact arithmetic). -/

/-- The `degRotations` state of `ClockInterface`: one angle in degrees per
time unit. -/
structure DegRotations where
  hour : ℚ
  minute : ℚ
  second : ℚ
  deriving DecidableEq

/-- The `useState` initial value of `degRotations` (lines 652–658): all three
angles start at 0. -/
def initDegRotations : DegRotations := ⟨0, 0, 0⟩

/-- A wall-clock reading, as delivered by `Date.getHours()` /
`.getMinutes()` / `.getSeconds()`. -/
structure Time where
  hours : ℕ
  minutes : ℕ
  seconds : ℕ

/-- The initialization of the rotation degrees from the `time` prop
(Clock.tsx lines 665–670):
`initialHourDeg = ((time.getHours() % 12) / 12) * 360 + (time.getMinutes() / 60) * 30`,
`initialMinuteDeg = (time.getMinutes() / 60) * 360 + (time.getSeconds() / 60) * 6`,
`initialSecondDeg = (time.getSeconds() / 60) * 360`. -/
def initialDegs (t : Time) : DegRotations :=
  ⟨((t.hours % 12 : ℕ) : ℚ) / 12 * 360 + (t.minutes : ℚ) / 60 * 30,
   (t.minutes : ℚ) / 60 * 360 + (t.seconds : ℚ) / 60 * 6,
   (t.seconds : ℚ) / 60 * 360⟩

/-- Modelled from the spec: the continuous-mode angle formulas as the spec
states them — `hourDeg = (hours % 12)/12 * 360 + minutes/60 * 30`,
`minuteDeg = minutes/60 * 360 + seconds/60 * 6`,
`secondDeg = seconds/60 * 360`. -/
def specContinuousDegs (t : Time) : DegRotations :=
  ⟨((t.hours % 12 : ℕ) : ℚ) / 12 * 360 + (t.minutes : ℚ) / 60 * 30,
   (t.minutes : ℚ) / 60 * 360 + (t.seconds : ℚ) / 60 * 6,
   (t.seconds : ℚ) / 60 * 360⟩

/-- Modelled from the spec: the discrete-mode (`showDiscreteTime`) angle
computation.  The README documents the `showDiscreteTime` interface option,
but its implementation is not part of the provided source files; the formulas
are taken from the spec: `hourDeg = (hours % 12)/12 * 360` (no minute
contribution), `minuteDeg = minutes/60 * 360` (no second contribution),
`secondDeg = seconds/60 * 360`. -/
def discreteDegs (t : Time) : DegRotations :=
  ⟨((t.hours % 12 : ℕ) : ℚ) / 12 * 360,
   (t.minutes : ℚ) / 60 * 360,
   (t.seconds : ℚ) / 60 * 360⟩

/-- One firing of the `setInterval` callback (Clock.tsx lines 679–685): each
angle is advanced from its previous value, `hour` by `1 / 120`, `minute` by
`0.1`, `second` by `6`. -/
def tickStep (prev : DegRotations) : DegRotations :=
  ⟨prev.hour + 1 / 120, prev.minute + 0.1, prev.second + 6⟩

/-- The body of the rotation `useEffect` (Clock.tsx lines 663–688) run on a
state `st`: when `dynamic` is false it returns immediately — the state is
left untouched and no interval is armed (second component `false`); when
`dynamic` is true it sets the state from the `time` prop and arms the
per-second interval. -/
def runRotationEffect (dynamic : Bool) (t : Time) (st : DegRotations) :
    DegRotations × Bool :=
  if dynamic then (initialDegs t, true) else (st, false)

/-- The state after `n` further seconds: the interval callback fires once per
second when an interval was armed, and never fires otherwise. -/
def ticksAfter (armed : Bool) (st : DegRotations) : ℕ → DegRotations
  | 0 => st
  | n + 1 => if armed then tickStep (ticksAfter armed st n) else st

/-!  § Hand geometry (src/src/Clock.tsx, `ClockHand`, lines 564–643). -/

/-- The `alignment` option of a hand's front segment. -/
inductive Alignment where
  | PIVOT
  | TICK
  | CENTER
  deriving DecidableEq

/-- The geometry inputs that `ClockHand` reads from its options (lines
585–588): heights and widths of the `front`, `frontBase` and `back`
segments. -/
structure HandGeometry where
  frontHeight : ℚ
  frontWidth : ℚ
  frontBaseHeight : ℚ
  frontBaseWidth : ℚ
  backHeight : ℚ
  backWidth : ℚ

/-- `frontAlignmentTranslation` (Clock.tsx lines 590–596):
`alignment === "PIVOT" ? frontHeight - frontBaseHeight
 : alignment === "CENTER" ? (frontHeight + pivotSize / 2 - frontBaseHeight) / 2
 : 0`. -/
def frontAlignmentTranslation (alignment : Alignment)
    (frontHeight frontBaseHeight pivotSize : ℚ) : ℚ :=
  match alignment with
  | .PIVOT => frontHeight - frontBaseHeight
  | .CENTER => (frontHeight + pivotSize / 2 - frontBaseHeight) / 2
  | .TICK => 0

/-- `resolvedHandWidth` (Clock.tsx lines 598–601):
`Math.max(frontBaseWidth, backWidth)`. -/
def resolvedHandWidth (g : HandGeometry) : ℚ :=
  max g.frontBaseWidth g.backWidth

/-- The hand's overall height, the `--hand-height` CSS variable of the hand
container (Clock.tsx line 607): `backHeight + frontBaseHeight`. -/
def handHeight (g : HandGeometry) : ℚ :=
  g.backHeight + g.frontBaseHeight

/-!  § Id-tagged value model for reference-sharing claims about `defaultFill`.

JavaScript objects are references; `structuredClone` allocates fresh ones,
while the plain assignment `newObject[key] = userVal` in the scalar branch of
`defaultFill` stores the user's value itself.  To reason about which
sub-objects of the merge result are shared (by reference) with either input,
every reference-carrying value (plain object, and the atomic array-like
values: arrays, `Date`, `RegExp`, `Set`, `Map`) carries a node identity.
Identities are allocated from a counter threaded through the functions:
`structuredClone` gives every copied node a fresh identity.  Primitive values
(numbers, strings, booleans, `undefined`, `null`) are not references and
carry no identity.  The contents of array-like values are abstracted away
(the merger never inspects them). -/

mutual

inductive HValue where
  | hnum (q : ℚ)
  | hstr (s : String)
  | hbool (b : Bool)
  | hundef
  | hnull
  | harr (id : ℕ)
  | hobj (id : ℕ) (fields : HFields)

inductive HFields where
  | hnil
  | hcons (key : String) (value : HValue) (rest : HFields)

end

/-- JavaScript `typeof` on id-tagged values. -/
def typeOfH : HValue → String
  | .hnum _ => "number"
  | .hstr _ => "string"
  | .hbool _ => "boolean"
  | .hundef => "undefined"
  | .hnull => "object"
  | .harr _ => "object"
  | .hobj _ _ => "object"

/-- `isObject` on id-tagged values: only plain objects. -/
def isObjectH : HValue → Bool
  | .hobj _ _ => true
  | _ => false

/-- Property lookup on id-tagged fields. -/
def lookupHF (k : String) : HFields → Option HValue
  | .hnil => none
  | .hcons k' v rest => if k' = k then some v else lookupHF k rest

mutual

/-- `structuredClone`: a deep copy in which every reference-carrying node
receives a fresh identity drawn from the counter `c`.  Returns the copy and
the next unused counter value. -/
def cloneH : HValue → ℕ → HValue × ℕ
  | .harr _, c => (.harr c, c + 1)
  | .hobj _ fs, c =>
    let r := cloneHF fs (c + 1)
    (.hobj c r.1, r.2)
  | v, c => (v, c)

def cloneHF : HFields → ℕ → HFields × ℕ
  | .hnil, c => (.hnil, c)
  | .hcons k v rest, c =>
    let rv := cloneH v c
    let rr := cloneHF rest rv.2
    (.hcons k rv.1 rr.1, rr.2)

end

/-- `value === undefined` on id-tagged values. -/
def isUndefH : HValue → Bool
  | .hundef => true
  | _ => false

mutual

/-- `defaultFill` over id-tagged values.  The source clones the whole default
tree up front (`structuredClone(defaultObj)`) and then overwrites fields of
the clone; this model allocates the clone of each default field at the point
where the field is kept, which produces the same result up to the choice of
fresh identities: every kept default node gets a fresh identity, every
user value taken in the scalar branch keeps its own identities (it is stored
by reference, not copied), and the result's root object is fresh. -/
def defaultFillH : HValue → HValue → ℕ → HValue × ℕ
  | .hobj _ dfs, .hobj _ ufs, c =>
    let r := fillFieldsH dfs ufs (c + 1)
    (.hobj c r.1, r.2)
  | d, _, c => cloneH d c

/-- The field loop of `defaultFill` over id-tagged values; mirrors
`fillFields` branch for branch.  Only the last branch — the plain assignment
`newObject[key] = userVal` — stores a user value by reference. -/
def fillFieldsH : HFields → HFields → ℕ → HFields × ℕ
  | .hnil, _, c => (.hnil, c)
  | .hcons k dv rest, ufs, c =>
    let hd : HValue × ℕ :=
      match lookupHF k ufs with
      | none => cloneH dv c
      | some uv =>
        if isUndefH uv then cloneH dv c
        else if typeOfH dv ≠ typeOfH uv then cloneH dv c
        else if isObjectH dv then defaultFillH dv uv c
        else (uv, c)
    let tl := fillFieldsH rest ufs hd.2
    (.hcons k hd.1 tl.1, tl.2)

end

/-- The loop body of `fillFieldsH` for a single default field, abstracted
over the user object's property at that key; `fillFieldsH_cons` relates it
to `fillFieldsH`. -/
def fillEntryH (dv : HValue) (o : Option HValue) (c : ℕ) : HValue × ℕ :=
  match o with
  | none => cloneH dv c
  | some uv =>
    if isUndefH uv then cloneH dv c
    else if typeOfH dv ≠ typeOfH uv then cloneH dv c
    else if isObjectH dv then defaultFillH dv uv c
    else (uv, c)

theorem fillFieldsH_cons (k : String) (dv : HValue) (rest ufs : HFields) (c : ℕ) :
    fillFieldsH (.hcons k dv rest) ufs c =
      (.hcons k (fillEntryH dv (lookupHF k ufs) c).1
        (fillFieldsH rest ufs (fillEntryH dv (lookupHF k ufs) c).2).1,
       (fillFieldsH rest ufs (fillEntryH dv (lookupHF k ufs) c).2).2) := rfl

mutual

/-- The identities of all reference-carrying nodes of a value. -/
def idsOf : HValue → List ℕ
  | .harr i => [i]
  | .hobj i fs => i :: idsOfF fs
  | _ => []

def idsOfF : HFields → List ℕ
  | .hnil => []
  | .hcons _ v rest => idsOf v ++ idsOfF rest

end

mutual

/-- Every identity in the value is below `c` (so a counter starting at `c`
is fresh for it). -/
def idsBelow (c : ℕ) : HValue → Bool
  | .harr i => i < c
  | .hobj i fs => decide (i < c) && idsBelowF c fs
  | _ => true

def idsBelowF (c : ℕ) : HFields → Bool
  | .hnil => true
  | .hcons _ v rest => idsBelow c v && idsBelowF c rest

end

mutual

/-- A default *field* is plain when it is a number, string, boolean,
`undefined`, or a recursively plain plain-object — i.e. not `null` and not
an array-like value, whose `typeof` is `"object"` although `isObject`
rejects them.  (A `null` or array-like default field is exactly what lets a
user reference slip into the result through the scalar branch.) -/
def plainField : HValue → Bool
  | .hnull => false
  | .harr _ => false
  | .hobj _ fs => plainDefaultF fs
  | _ => true

def plainDefaultF : HFields → Bool
  | .hnil => true
  | .hcons _ v rest => plainField v && plainDefaultF rest

end

/-- A default tree is *plain* when every field of every plain-object node in
it is plain.  The actual `OPTIONS` default tree is plain: its leaves are
only numbers, strings and booleans. -/
def plainDefault : HValue → Bool
  | .hobj _ fs => plainDefaultF fs
  | _ => true

/-!  § Theorems. -/

/-!  §§ Lemmas about `defaultFill`. -/

theorem fillEntry_mismatch (dv uv : Value) (hu : isUndef uv = false)
    (ht : typeOf dv ≠ typeOf uv) : fillEntry dv (some uv) = (dv, 1) := by
  simp [fillEntry, hu, ht]

/-- A default field keeps its position: if `k` first occurs in `dfs` with
value `dv`, then `k` first occurs in the merge result with the processed
value of `dv`. -/
theorem lookupF_fillFields (dfs ufs : Fields) (k : String) (dv : Value)
    (hd : lookupF k dfs = some dv) :
    lookupF k (fillFields dfs ufs).1 = some (fillEntry dv (lookupF k ufs)).1 := by
  cases dfs with
  | fnil => simp [lookupF] at hd
  | fcons k' v rest =>
    rw [fillFields_cons]
    simp only [lookupF] at hd ⊢
    by_cases h : k' = k
    · rw [if_pos h] at hd ⊢
      cases hd
      rw [h]
    · rw [if_neg h] at hd ⊢
      exact lookupF_fillFields rest ufs k dv hd
termination_by sizeOf dfs

theorem sameShape_of_not_isObject (d v : Value) (h : isObject d = false) :
    sameShape d v = (typeOf d == typeOf v) := by
  cases d <;> simp_all [sameShape, isObject]

mutual

theorem sameShape_refl (d : Value) : sameShape d d = true := by
  cases d with
  | vObj fs => simpa [sameShape] using sameShapeF_refl fs
  | _ => simp [sameShape]
termination_by 3 * sizeOf d
decreasing_by all_goals (subst_vars; simp_wf; try omega)

theorem sameShapeF_refl (fs : Fields) : sameShapeF fs fs = true := by
  cases fs with
  | fnil => rfl
  | fcons k v rest =>
    simp only [sameShapeF, Bool.and_eq_true, beq_self_eq_true, true_and]
    exact ⟨sameShape_refl v, sameShapeF_refl rest⟩
termination_by 3 * sizeOf fs
decreasing_by all_goals (subst_vars; simp_wf; try omega)

theorem sameShape_fill (d u : Value) : sameShape d (defaultFill d u).1 = true := by
  cases d with
  | vObj dfs =>
    cases u with
    | vObj ufs => simpa [defaultFill, sameShape] using sameShapeF_fill dfs ufs
    | _ => simpa [defaultFill, sameShape] using sameShapeF_refl dfs
  | _ => exact sameShape_refl _
termination_by 3 * sizeOf d + 1
decreasing_by all_goals (subst_vars; simp_wf; try omega)

theorem sameShapeF_fill (dfs ufs : Fields) :
    sameShapeF dfs (fillFields dfs ufs).1 = true := by
  cases dfs with
  | fnil => rfl
  | fcons k dv rest =>
    rw [fillFields_cons]
    simp only [sameShapeF, Bool.and_eq_true, beq_self_eq_true, true_and]
    exact ⟨sameShape_fillEntry dv (lookupF k ufs), sameShapeF_fill rest ufs⟩
termination_by 3 * sizeOf dfs + 1
decreasing_by all_goals (subst_vars; simp_wf; try omega)

theorem sameShape_fillEntry (dv : Value) (o : Option Value) :
    sameShape dv (fillEntry dv o).1 = true := by
  match o with
  | none => exact sameShape_refl dv
  | some uv =>
    by_cases hu : isUndef uv = true
    · simpa [fillEntry, hu] using sameShape_refl dv
    · by_cases ht : typeOf dv = typeOf uv
      · by_cases ho : isObject dv = true
        · simpa [fillEntry, hu, ht, ho] using sameShape_fill dv uv
        · have : fillEntry dv (some uv) = (uv, 0) := by
            simp [fillEntry, hu, ht, Bool.eq_false_iff.mp (by simpa using ho)]
          rw [this]
          rw [sameShape_of_not_isObject dv uv (by simpa using ho)]
          simp [ht]
      · simpa [fillEntry, hu, ht] using sameShape_refl dv
termination_by 3 * sizeOf dv + 2
decreasing_by all_goals (subst_vars; simp_wf; try omega)

end

theorem fillFields_nil (dfs : Fields) : fillFields dfs .fnil = (dfs, 0) := by
  cases dfs with
  | fnil => rfl
  | fcons k dv rest =>
    rw [fillFields_cons, fillFields_nil rest]
    rfl
termination_by sizeOf dfs

theorem typeOf_defaultFill (d u : Value) : typeOf (defaultFill d u).1 = typeOf d := by
  cases d <;> cases u <;> rfl

theorem isObject_defaultFill (d u : Value) :
    isObject (defaultFill d u).1 = isObject d := by
  cases d <;> cases u <;> rfl

theorem exists_obj_of_isObject (v : Value) (h : isObject v = true) :
    ∃ fs, v = Value.vObj fs := by
  cases v
  case vObj fs => exact ⟨fs, rfl⟩
  all_goals simp [isObject] at h

theorem typeOf_eq_object_of_isObject (v : Value) (h : isObject v = true) :
    typeOf v = "object" := by
  cases v <;> simp_all [isObject, typeOf]

mutual

/-- Merging the default tree into itself reproduces it with no warnings. -/
theorem defaultFill_self (d : Value) (h : wfKeys d = true) :
    defaultFill d d = (d, 0) := by
  cases d
  case vObj dfs =>
    simp only [wfKeys, Bool.and_eq_true] at h
    have hf := fillFields_idem dfs .fnil dfs h.2 h.1 (fun k _ => by rw [fillFields_nil])
    rw [fillFields_nil] at hf
    show (Value.vObj (fillFields dfs dfs).1, (fillFields dfs dfs).2) = (Value.vObj dfs, 0)
    rw [hf]
  all_goals rfl
termination_by 5 * sizeOf d
decreasing_by all_goals (subst_vars; simp_wf; try omega)

theorem fill_idem (d u : Value) (h : wfKeys d = true) :
    defaultFill d (defaultFill d u).1 = ((defaultFill d u).1, 0) := by
  cases d
  case vObj dfs =>
    cases u
    case vObj ufs =>
      have h' := h
      simp only [wfKeys, Bool.and_eq_true] at h'
      have hf := fillFields_idem dfs ufs (fillFields dfs ufs).1 h'.2 h'.1 (fun k _ => rfl)
      show (Value.vObj (fillFields dfs (fillFields dfs ufs).1).1,
            (fillFields dfs (fillFields dfs ufs).1).2)
          = (Value.vObj (fillFields dfs ufs).1, 0)
      rw [hf]
    all_goals exact defaultFill_self (.vObj dfs) h
  all_goals rfl
termination_by 5 * sizeOf d + 1
decreasing_by all_goals (subst_vars; simp_wf; try omega)

/-- Re-merging a value already kept from the default leaves it unchanged and
emits no warning. -/
theorem fillEntry_self (dv : Value) (h : wfKeys dv = true) :
    fillEntry dv (some dv) = (dv, 0) := by
  by_cases ho : isObject dv = true
  · have hu : isUndef dv = false := by
      obtain ⟨fs, hfs⟩ := exists_obj_of_isObject dv ho
      rw [hfs]
      rfl
    have h4 : typeOf dv = "object" := typeOf_eq_object_of_isObject dv ho
    have hs := defaultFill_self dv h
    simp [fillEntry, hu, h4, ho, hs]
  · cases dv
    all_goals first
      | rfl
      | simp [isObject] at ho
termination_by 5 * sizeOf dv + 2
decreasing_by all_goals (subst_vars; simp_wf; try omega)

/-- Re-merging the processed value of a default field reproduces it exactly,
with no warning. -/
theorem fillEntry_idem (dv : Value) (o : Option Value) (h : wfKeys dv = true) :
    fillEntry dv (some (fillEntry dv o).1) = ((fillEntry dv o).1, 0) := by
  match o with
  | none => exact fillEntry_self dv h
  | some uv =>
    by_cases hu : isUndef uv = true
    · rw [show (fillEntry dv (some uv)).1 = dv by simp [fillEntry, hu]]
      exact fillEntry_self dv h
    · rw [Bool.not_eq_true] at hu
      by_cases ht : typeOf dv = typeOf uv
      · by_cases ho : isObject dv = true
        · have h1 : fillEntry dv (some uv) = defaultFill dv uv := by
            simp [fillEntry, hu, ht, ho]
          have hobj2 : isObject (defaultFill dv uv).1 = true := by
            rw [isObject_defaultFill, ho]
          obtain ⟨fs, hfs⟩ := exists_obj_of_isObject _ hobj2
          have h4 : typeOf dv = "object" := typeOf_eq_object_of_isObject dv ho
          have h5 : typeOf (Value.vObj fs) = "object" := rfl
          have h3 := fill_idem dv uv h
          rw [hfs] at h3
          rw [h1, hfs]
          simpa [fillEntry, isUndef, h4, h5, ho] using h3
        · have h1 : fillEntry dv (some uv) = (uv, 0) := by
            simp [fillEntry, hu, ht, ho]
          have h2 : (fillEntry dv (some uv)).1 = uv := by rw [h1]
          rw [h2]
          exact h1
      · rw [show (fillEntry dv (some uv)).1 = dv by simp [fillEntry, hu, ht]]
        exact fillEntry_self dv h
termination_by 5 * sizeOf dv + 3
decreasing_by all_goals (subst_vars; simp_wf; try omega)

/-- Filling the default fields with any user object that agrees, on the
default's keys, with an earlier merge result reproduces that merge result
with no warnings. -/
theorem fillFields_idem (dfs ufs Y : Fields) (hw : wfKeysF dfs = true)
    (hn : nodupKeysF dfs = true)
    (hY : ∀ k, keyMemF k dfs = true → lookupF k Y = lookupF k (fillFields dfs ufs).1) :
    fillFields dfs Y = ((fillFields dfs ufs).1, 0) := by
  cases dfs with
  | fnil => rfl
  | fcons k dv rest =>
    simp only [wfKeysF, Bool.and_eq_true] at hw
    simp only [nodupKeysF, Bool.and_eq_true, Bool.not_eq_true'] at hn
    have hmem : keyMemF k (.fcons k dv rest) = true := by simp [keyMemF]
    have hk : lookupF k Y = some (fillEntry dv (lookupF k ufs)).1 := by
      rw [hY k hmem, fillFields_cons]
      simp [lookupF]
    have hhd : fillEntry dv (lookupF k Y) = ((fillEntry dv (lookupF k ufs)).1, 0) := by
      rw [hk]
      exact fillEntry_idem dv (lookupF k ufs) hw.1
    have htl : fillFields rest Y = ((fillFields rest ufs).1, 0) := by
      refine fillFields_idem rest ufs Y hw.2 hn.2 (fun m hm => ?_)
      have hmk : k ≠ m := by
        intro hkm
        rw [hkm] at hn
        rw [hm] at hn
        exact absurd hn.1 (by simp)
      have : keyMemF m (.fcons k dv rest) = true := by simp [keyMemF, hm]
      rw [hY m this, fillFields_cons]
      simp [lookupF, hmk]
    rw [fillFields_cons, fillFields_cons, hhd, htl]
    rfl
termination_by 5 * sizeOf dfs + 4
decreasing_by all_goals (subst_vars; simp_wf; try omega)

end

/-- The user input of the fallback-correctness test case:
`{face: {padding: "10"}}`. -/
def c3user : Value := .vObj (fieldsOf [("face", .vObj (fieldsOf [("padding", .vStr "10")]))])

/-- C3: whenever a user property exists (and is not `undefined`) at a key of
the default object but its `typeof` differs from the default field's, the
merge keeps the default value at that key (it never throws — the model is a
total function); and for the default `face.padding = 0` with user input
`{face: {padding: "10"}}` the output retains `padding = 0` while exactly one
warning is emitted over the whole merge. -/
theorem type_mismatch_falls_back :
    (∀ (dfs ufs : Fields) (k : String) (dv uv : Value),
        lookupF k dfs = some dv → lookupF k ufs = some uv →
        isUndef uv = false → typeOf dv ≠ typeOf uv →
        lookupF k (fillFields dfs ufs).1 = some dv) ∧
    getPath (defaultFill OPTIONS c3user).1 ["face", "padding"] = some (.vNum 0) ∧
    (defaultFill OPTIONS c3user).2 = 1 := by
  refine ⟨fun dfs ufs k dv uv hd hu hund ht => ?_, rfl, rfl⟩
  rw [lookupF_fillFields dfs ufs k dv hd, hu, fillEntry_mismatch dv uv hund ht]

/-- C5: for every default tree and every user input, the merged output is
structurally identical to the default tree — at every plain-object node the
very same fields in the same order, and at every scalar position a value of
the default field's `typeof`. -/
theorem merge_shape_complete :
    ∀ (d u : Value), sameShape d (defaultFill d u).1 = true :=
  sameShape_fill

/-- C2: in continuous mode the angles computed from the absolute time are
`hourDeg = (hours % 12)/12 * 360 + minutes/60 * 30`,
`minuteDeg = minutes/60 * 360 + seconds/60 * 6`,
`secondDeg = seconds/60 * 360`; in particular for 03:15:30 they are 97.5, 93
and 180 degrees. -/
theorem continuous_angles_correct :
    (∀ t : Time, initialDegs t = specContinuousDegs t) ∧
    initialDegs ⟨3, 15, 30⟩ = ⟨97.5, 93, 180⟩ := by
  refine ⟨fun t => rfl, ?_⟩
  simp only [initialDegs, DegRotations.mk.injEq]
  norm_num

/-- C1 (discrete mode is spec-modelled: its implementation is not in the
provided sources): in discrete mode the hour angle is `(hours % 12)/12 * 360`
with no contribution from the minutes, and the minute angle is
`minutes/60 * 360` with no contribution from the seconds; in particular for
05:00:00 the hour angle is exactly 150 and the minute angle is 0. -/
theorem discrete_angles_correct :
    (∀ h m s : ℕ, discreteDegs ⟨h, m, s⟩ =
       ⟨((h % 12 : ℕ) : ℚ) / 12 * 360, (m : ℚ) / 60 * 360, (s : ℚ) / 60 * 360⟩) ∧
    (∀ h m m' s s' : ℕ, (discreteDegs ⟨h, m, s⟩).hour = (discreteDegs ⟨h, m', s'⟩).hour) ∧
    (∀ h m s s' : ℕ, (discreteDegs ⟨h, m, s⟩).minute = (discreteDegs ⟨h, m, s'⟩).minute) ∧
    discreteDegs ⟨5, 0, 0⟩ = ⟨150, 0, 0⟩ := by
  refine ⟨fun h m s => rfl, fun h m m' s s' => rfl, fun h m s s' => rfl, ?_⟩
  simp only [discreteDegs, DegRotations.mk.injEq]
  norm_num

/-- C7: the front-segment alignment offset is `frontHeight - frontBaseHeight`
for `PIVOT`, `0` for `TICK`, and `(frontHeight + pivotSize/2 - frontBaseHeight)/2`
for `CENTER`; for `frontHeight = 80`, `frontBaseHeight = 120`,
`pivotSize = 20` the offsets are `-40`, `0` and `-15`. -/
theorem alignment_offsets_correct :
    (∀ fh fbh ps : ℚ,
       frontAlignmentTranslation .PIVOT fh fbh ps = fh - fbh ∧
       frontAlignmentTranslation .TICK fh fbh ps = 0 ∧
       frontAlignmentTranslation .CENTER fh fbh ps = (fh + ps / 2 - fbh) / 2) ∧
    frontAlignmentTranslation .PIVOT 80 120 20 = -40 ∧
    frontAlignmentTranslation .TICK 80 120 20 = 0 ∧
    frontAlignmentTranslation .CENTER 80 120 20 = -15 := by
  refine ⟨fun fh fbh ps => ⟨rfl, rfl, rfl⟩, ?_, rfl, ?_⟩ <;>
    · simp only [frontAlignmentTranslation]
      norm_num

/-- C8: each firing of the live tick interval advances the angles from their
previous values — the hour angle by `1/120` degree, the minute angle by
`0.1 = 1/10` degree, the second angle by `6` degrees — and hence after `n`
ticks the angles have advanced by exactly `n` times those increments,
without any reading of an absolute clock (`tickStep` takes no time input). -/
theorem tick_increments_correct :
    ∀ (p : DegRotations) (n : ℕ),
      tickStep p = ⟨p.hour + 1 / 120, p.minute + 1 / 10, p.second + 6⟩ ∧
      tickStep^[n] p = ⟨p.hour + n * (1 / 120), p.minute + n * (1 / 10), p.second + n * 6⟩ := by
  intro p n
  constructor
  · simp only [tickStep, DegRotations.mk.injEq]
    norm_num
  · induction n with
    | zero => simp
    | succ k ih =>
      rw [Function.iterate_succ_apply', ih]
      simp only [tickStep, DegRotations.mk.injEq]
      push_cast
      refine ⟨by ring, by norm_num; ring, by ring⟩

/-- C9: the hand's overall rendered width is `max(frontBaseWidth, backWidth)`
and its overall rendered height is `backHeight + frontBaseHeight`; neither
depends on the front segment's width or height. -/
theorem hand_bounding_dimensions :
    ∀ (g : HandGeometry) (fh fw : ℚ),
      resolvedHandWidth g = max g.frontBaseWidth g.backWidth ∧
      handHeight g = g.backHeight + g.frontBaseHeight ∧
      resolvedHandWidth { g with frontHeight := fh, frontWidth := fw } = resolvedHandWidth g ∧
      handHeight { g with frontHeight := fh, frontWidth := fw } = handHeight g :=
  fun g fh fw => ⟨rfl, rfl, rfl, rfl⟩

/-- C10: when `dynamic` is false the rotation effect returns without reading
the supplied time and without arming the interval, so all three hand angles
are the `useState` initial value 0 and stay 0 after any number of elapsed
seconds: a non-dynamic clock never displays the provided time. -/
theorem non_dynamic_angles_stay_zero :
    ∀ (t : Time) (n : ℕ),
      runRotationEffect false t initDegRotations = (initDegRotations, false) ∧
      ticksAfter (runRotationEffect false t initDegRotations).2
        (runRotationEffect false t initDegRotations).1 n = ⟨0, 0, 0⟩ := by
  intro t n
  refine ⟨rfl, ?_⟩
  cases n <;> rfl

/-- C4: merging an already-merged result into the default tree changes
nothing: for every partial user input `u`,
`merge(OPTIONS, merge(OPTIONS, u)) = merge(OPTIONS, u)`. -/
theorem merge_idempotent :
    ∀ u : Value, (defaultFill OPTIONS (defaultFill OPTIONS u).1).1 = (defaultFill OPTIONS u).1 := by
  intro u
  rw [fill_idem OPTIONS u (by rfl)]

/-!  §§ Lemmas about the id-tagged model. -/

mutual

theorem cloneH_mono (v : HValue) (c : ℕ) : c ≤ (cloneH v c).2 := by
  cases v
  case harr i => exact Nat.le_succ c
  case hobj i fs => exact Nat.le_trans (Nat.le_succ c) (cloneHF_mono fs (c + 1))
  all_goals exact Nat.le_refl c
termination_by 2 * sizeOf v
decreasing_by all_goals (subst_vars; simp_wf; try omega)

theorem cloneHF_mono (fs : HFields) (c : ℕ) : c ≤ (cloneHF fs c).2 := by
  cases fs
  case hnil => exact Nat.le_refl c
  case hcons k v rest =>
    exact Nat.le_trans (cloneH_mono v c) (cloneHF_mono rest (cloneH v c).2)
termination_by 2 * sizeOf fs + 1
decreasing_by all_goals (subst_vars; simp_wf; try omega)

end

mutual

theorem cloneH_ids (v : HValue) (c : ℕ) (i : ℕ)
    (hi : i ∈ idsOf (cloneH v c).1) : c ≤ i := by
  cases v
  case harr j =>
    simp only [cloneH, idsOf, List.mem_singleton] at hi
    omega
  case hobj j fs =>
    simp only [cloneH, idsOf, List.mem_cons] at hi
    rcases hi with rfl | hi
    · exact Nat.le_refl i
    · exact Nat.le_trans (Nat.le_succ c) (cloneHF_ids fs (c + 1) i hi)
  all_goals simp [cloneH, idsOf] at hi
termination_by 2 * sizeOf v
decreasing_by all_goals (subst_vars; simp_wf; try omega)

theorem cloneHF_ids (fs : HFields) (c : ℕ) (i : ℕ)
    (hi : i ∈ idsOfF (cloneHF fs c).1) : c ≤ i := by
  cases fs
  case hnil => simp [cloneHF, idsOfF] at hi
  case hcons k v rest =>
    simp only [cloneHF, idsOfF, List.mem_append] at hi
    rcases hi with hi | hi
    · exact cloneH_ids v c i hi
    · exact Nat.le_trans (cloneH_mono v c) (cloneHF_ids rest (cloneH v c).2 i hi)
termination_by 2 * sizeOf fs + 1
decreasing_by all_goals (subst_vars; simp_wf; try omega)

end

mutual

theorem defaultFillH_mono (d u : HValue) (c : ℕ) : c ≤ (defaultFillH d u c).2 := by
  cases d
  case hobj j dfs =>
    cases u
    case hobj j' ufs =>
      exact Nat.le_trans (Nat.le_succ c) (fillFieldsH_mono dfs ufs (c + 1))
    all_goals exact cloneH_mono _ c
  all_goals exact cloneH_mono _ c
termination_by 5 * sizeOf d
decreasing_by all_goals (subst_vars; simp_wf; try omega)

theorem fillEntryH_mono (dv : HValue) (o : Option HValue) (c : ℕ) :
    c ≤ (fillEntryH dv o c).2 := by
  match o with
  | none => exact cloneH_mono dv c
  | some uv =>
    by_cases hu : isUndefH uv = true
    · simpa [fillEntryH, hu] using cloneH_mono dv c
    · by_cases ht : typeOfH dv = typeOfH uv
      · by_cases ho : isObjectH dv = true
        · simpa [fillEntryH, hu, ht, ho] using defaultFillH_mono dv uv c
        · simp [fillEntryH, hu, ht, ho]
      · simpa [fillEntryH, hu, ht] using cloneH_mono dv c
termination_by 5 * sizeOf dv + 1
decreasing_by all_goals (subst_vars; simp_wf; try omega)

theorem fillFieldsH_mono (dfs ufs : HFields) (c : ℕ) :
    c ≤ (fillFieldsH dfs ufs c).2 := by
  cases dfs
  case hnil => exact Nat.le_refl c
  case hcons k dv rest =>
    rw [fillFieldsH_cons]
    exact Nat.le_trans (fillEntryH_mono dv (lookupHF k ufs) c)
      (fillFieldsH_mono rest ufs (fillEntryH dv (lookupHF k ufs) c).2)
termination_by 5 * sizeOf dfs + 2
decreasing_by all_goals (subst_vars; simp_wf; try omega)

end

theorem lookupHF_ids (k : String) (ufs : HFields) (uv : HValue)
    (h : lookupHF k ufs = some uv) (i : ℕ) (hi : i ∈ idsOf uv) :
    i ∈ idsOfF ufs := by
  cases ufs
  case hnil => simp [lookupHF] at h
  case hcons k' v rest =>
    simp only [lookupHF] at h
    simp only [idsOfF, List.mem_append]
    by_cases hk : k' = k
    · rw [if_pos hk] at h
      cases h
      exact Or.inl hi
    · rw [if_neg hk] at h
      exact Or.inr (lookupHF_ids k rest uv h i hi)
termination_by sizeOf ufs

mutual

/-- Every node identity of the merge result is either fresh (at or above the
allocation counter) or one of the user input's identities — never one of the
default tree's. -/
theorem defaultFillH_ids (d u : HValue) (c : ℕ) (i : ℕ)
    (hi : i ∈ idsOf (defaultFillH d u c).1) : c ≤ i ∨ i ∈ idsOf u := by
  cases d
  case hobj j dfs =>
    cases u
    case hobj j' ufs =>
      simp only [defaultFillH, idsOf, List.mem_cons] at hi
      rcases hi with rfl | hi
      · exact Or.inl (Nat.le_refl i)
      · rcases fillFieldsH_ids dfs ufs (c + 1) i hi with h | h
        · exact Or.inl (Nat.le_trans (Nat.le_succ c) h)
        · exact Or.inr (by simp [idsOf, h])
    all_goals exact Or.inl (cloneH_ids _ c i hi)
  all_goals exact Or.inl (cloneH_ids _ c i hi)
termination_by 5 * sizeOf d
decreasing_by all_goals (subst_vars; simp_wf; try omega)

theorem fillEntryH_ids (dv : HValue) (o : Option HValue) (c : ℕ) (i : ℕ)
    (hi : i ∈ idsOf (fillEntryH dv o c).1) :
    c ≤ i ∨ ∃ uv, o = some uv ∧ i ∈ idsOf uv := by
  match o with
  | none => exact Or.inl (cloneH_ids dv c i hi)
  | some uv =>
    by_cases hu : isUndefH uv = true
    · rw [show fillEntryH dv (some uv) c = cloneH dv c by simp [fillEntryH, hu]] at hi
      exact Or.inl (cloneH_ids dv c i hi)
    · by_cases ht : typeOfH dv = typeOfH uv
      · by_cases ho : isObjectH dv = true
        · rw [show fillEntryH dv (some uv) c = defaultFillH dv uv c by
            simp [fillEntryH, hu, ht, ho]] at hi
          rcases defaultFillH_ids dv uv c i hi with h | h
          · exact Or.inl h
          · exact Or.inr ⟨uv, rfl, h⟩
        · rw [show fillEntryH dv (some uv) c = (uv, c) by
            simp [fillEntryH, hu, ht, ho]] at hi
          exact Or.inr ⟨uv, rfl, hi⟩
      · rw [show fillEntryH dv (some uv) c = cloneH dv c by simp [fillEntryH, hu, ht]] at hi
        exact Or.inl (cloneH_ids dv c i hi)
termination_by 5 * sizeOf dv + 1
decreasing_by all_goals (subst_vars; simp_wf; try omega)

theorem fillFieldsH_ids (dfs ufs : HFields) (c : ℕ) (i : ℕ)
    (hi : i ∈ idsOfF (fillFieldsH dfs ufs c).1) : c ≤ i ∨ i ∈ idsOfF ufs := by
  cases dfs
  case hnil => simp [fillFieldsH, idsOfF] at hi
  case hcons k dv rest =>
    rw [fillFieldsH_cons] at hi
    simp only [idsOfF, List.mem_append] at hi
    rcases hi with hi | hi
    · rcases fillEntryH_ids dv (lookupHF k ufs) c i hi with h | ⟨uv, huv, h⟩
      · exact Or.inl h
      · exact Or.inr (lookupHF_ids k ufs uv huv i h)
    · rcases fillFieldsH_ids rest ufs (fillEntryH dv (lookupHF k ufs) c).2 i hi with h | h
      · exact Or.inl (Nat.le_trans (fillEntryH_mono dv (lookupHF k ufs) c) h)
      · exact Or.inr h
termination_by 5 * sizeOf dfs + 2
decreasing_by all_goals (subst_vars; simp_wf; try omega)

end

theorem typeOfH_not_object_ids (v : HValue) (h : typeOfH v ≠ "object") :
    idsOf v = [] := by
  cases v <;> simp_all [typeOfH, idsOf]

theorem plainField_not_object (dv : HValue) (hp : plainField dv = true)
    (ho : isObjectH dv = false) : typeOfH dv ≠ "object" := by
  cases dv <;> simp_all [plainField, isObjectH, typeOfH]

mutual

/-- When the default tree contains no `null` or array-like field, every node
identity of the merge result is fresh: nothing is shared with either input. -/
theorem defaultFillH_ids_plain (d u : HValue) (c : ℕ) (i : ℕ)
    (hp : plainDefault d = true) (hi : i ∈ idsOf (defaultFillH d u c).1) :
    c ≤ i := by
  cases d
  case hobj j dfs =>
    cases u
    case hobj j' ufs =>
      simp only [defaultFillH, idsOf, List.mem_cons] at hi
      rcases hi with rfl | hi
      · exact Nat.le_refl i
      · simp only [plainDefault] at hp
        exact Nat.le_trans (Nat.le_succ c) (fillFieldsH_ids_plain dfs ufs (c + 1) i hp hi)
    all_goals exact cloneH_ids _ c i hi
  all_goals exact cloneH_ids _ c i hi
termination_by 5 * sizeOf d
decreasing_by all_goals (subst_vars; simp_wf; try omega)

theorem fillEntryH_ids_plain (dv : HValue) (o : Option HValue) (c : ℕ) (i : ℕ)
    (hp : plainField dv = true) (hi : i ∈ idsOf (fillEntryH dv o c).1) :
    c ≤ i := by
  match o with
  | none => exact cloneH_ids dv c i hi
  | some uv =>
    by_cases hu : isUndefH uv = true
    · rw [show fillEntryH dv (some uv) c = cloneH dv c by simp [fillEntryH, hu]] at hi
      exact cloneH_ids dv c i hi
    · by_cases ht : typeOfH dv = typeOfH uv
      · by_cases ho : isObjectH dv = true
        · rw [show fillEntryH dv (some uv) c = defaultFillH dv uv c by
            simp [fillEntryH, hu, ht, ho]] at hi
          have hpd : plainDefault dv = true := by
            obtain ⟨id', fs', hfs⟩ : ∃ id' fs', dv = HValue.hobj id' fs' := by
              cases dv
              case hobj id' fs' => exact ⟨id', fs', rfl⟩
              all_goals simp [isObjectH] at ho
            rw [hfs] at hp ⊢
            simpa [plainDefault, plainField] using hp
          exact defaultFillH_ids_plain dv uv c i hpd hi
        · rw [show fillEntryH dv (some uv) c = (uv, c) by
            simp [fillEntryH, hu, ht, ho]] at hi
          have h1 : typeOfH dv ≠ "object" :=
            plainField_not_object dv hp (by simpa using ho)
          rw [typeOfH_not_object_ids uv (ht ▸ h1)] at hi
          simp at hi
      · rw [show fillEntryH dv (some uv) c = cloneH dv c by simp [fillEntryH, hu, ht]] at hi
        exact cloneH_ids dv c i hi
termination_by 5 * sizeOf dv + 1
decreasing_by all_goals (subst_vars; simp_wf; try omega)

theorem fillFieldsH_ids_plain (dfs ufs : HFields) (c : ℕ) (i : ℕ)
    (hp : plainDefaultF dfs = true) (hi : i ∈ idsOfF (fillFieldsH dfs ufs c).1) :
    c ≤ i := by
  cases dfs
  case hnil => simp [fillFieldsH, idsOfF] at hi
  case hcons k dv rest =>
    simp only [plainDefaultF, Bool.and_eq_true] at hp
    rw [fillFieldsH_cons] at hi
    simp only [idsOfF, List.mem_append] at hi
    rcases hi with hi | hi
    · exact fillEntryH_ids_plain dv (lookupHF k ufs) c i hp.1 hi
    · exact Nat.le_trans (fillEntryH_mono dv (lookupHF k ufs) c)
        (fillFieldsH_ids_plain rest ufs (fillEntryH dv (lookupHF k ufs) c).2 i hp.2 hi)
termination_by 5 * sizeOf dfs + 2
decreasing_by all_goals (subst_vars; simp_wf; try omega)

end

mutual

theorem idsBelow_lt (c : ℕ) (v : HValue) (i : ℕ) (h : idsBelow c v = true)
    (hi : i ∈ idsOf v) : i < c := by
  cases v
  case harr j =>
    simp only [idsOf, List.mem_singleton] at hi
    simp only [idsBelow, decide_eq_true_eq] at h
    omega
  case hobj j fs =>
    simp only [idsBelow, Bool.and_eq_true, decide_eq_true_eq] at h
    simp only [idsOf, List.mem_cons] at hi
    rcases hi with rfl | hi
    · exact h.1
    · exact idsBelowF_lt c fs i h.2 hi
  all_goals simp [idsOf] at hi
termination_by 2 * sizeOf v
decreasing_by all_goals (subst_vars; simp_wf; try omega)

theorem idsBelowF_lt (c : ℕ) (fs : HFields) (i : ℕ) (h : idsBelowF c fs = true)
    (hi : i ∈ idsOfF fs) : i < c := by
  cases fs
  case hnil => simp [idsOfF] at hi
  case hcons k v rest =>
    simp only [idsBelowF, Bool.and_eq_true] at h
    simp only [idsOfF, List.mem_append] at hi
    rcases hi with hi | hi
    · exact idsBelow_lt c v i h.1 hi
    · exact idsBelowF_lt c rest i h.2 hi
termination_by 2 * sizeOf fs + 1
decreasing_by all_goals (subst_vars; simp_wf; try omega)

end

/-- A default tree with one array-valued field, its array tagged with node
identity 1. -/
def c6default : HValue := .hobj 0 (.hcons "xs" (.harr 1) .hnil)

/-- A user input overriding that field with the user's own array, tagged
with node identity 11. -/
def c6user : HValue := .hobj 10 (.hcons "xs" (.harr 11) .hnil)

/-- C6 counterexample: merging `c6default` with `c6user` at a fresh
allocation counter (20, above every input identity) yields a result that
contains the user's array itself — node identity 11, a sub-object of the
user input, is shared by reference with the result, so the result is not
independent of both inputs. -/
theorem merge_shares_user_subobject :
    11 ∈ idsOf (defaultFillH c6default c6user 20).1 ∧
    11 ∈ idsOf c6user ∧
    idsBelow 20 c6default = true ∧ idsBelow 20 c6user = true := by
  refine ⟨?_, ?_, rfl, rfl⟩ <;> simp [c6default, c6user, defaultFillH, fillFieldsH,
    lookupHF, fillEntryH, isUndefH, typeOfH, isObjectH, idsOf, idsOfF]

/-- C6 (amended): merging never hands out any part of the default tree —
every node identity of the result is either freshly allocated or comes from
the user input; and when the default tree is plain (no `null` or array-like
field anywhere, as is true of the actual `OPTIONS` tree), the result shares
no node identity with either input. -/
theorem merge_fresh_amended (d u : HValue) (c : ℕ)
    (hd : idsBelow c d = true) (hu : idsBelow c u = true) :
    (∀ i, i ∈ idsOf (defaultFillH d u c).1 → i ∉ idsOf d ∨ i ∈ idsOf u) ∧
    (plainDefault d = true →
      ∀ i, i ∈ idsOf (defaultFillH d u c).1 → i ∉ idsOf d ∧ i ∉ idsOf u) := by
  constructor
  · intro i hi
    rcases defaultFillH_ids d u c i hi with h | h
    · exact Or.inl fun hmem => absurd (idsBelow_lt c d i hd hmem) (by omega)
    · exact Or.inr h
  · intro hp i hi
    have h := defaultFillH_ids_plain d u c i hp hi
    exact ⟨fun hmem => absurd (idsBelow_lt c d i hd hmem) (by omega),
           fun hmem => absurd (idsBelow_lt c u i hu hmem) (by omega)⟩

/-- Witness for `merge_fresh_amended` at a concrete plain default, user
input and counter. -/
theorem merge_fresh_amended_witness :
    (∀ i, i ∈ idsOf (defaultFillH (.hobj 0 (.hcons "padding" (.hnum 0) .hnil))
        (.hobj 1 (.hcons "padding" (.hnum 5) .hnil)) 2).1 →
      i ∉ idsOf (.hobj 0 (.hcons "padding" (.hnum 0) .hnil)) ∨
      i ∈ idsOf (.hobj 1 (.hcons "padding" (.hnum 5) .hnil))) ∧
    (plainDefault (.hobj 0 (.hcons "padding" (.hnum 0) .hnil)) = true →
      ∀ i, i ∈ idsOf (defaultFillH (.hobj 0 (.hcons "padding" (.hnum 0) .hnil))
          (.hobj 1 (.hcons "padding" (.hnum 5) .hnil)) 2).1 →
        i ∉ idsOf (.hobj 0 (.hcons "padding" (.hnum 0) .hnil)) ∧
        i ∉ idsOf (.hobj 1 (.hcons "padding" (.hnum 5) .hnil))) :=
  merge_fresh_amended (.hobj 0 (.hcons "padding" (.hnum 0) .hnil))
    (.hobj 1 (.hcons "padding" (.hnum 5) .hnil)) 2 (by rfl) (by rfl)

end ClockSpec
